import Mathlib

/-!
Verification development for the `DataStore` record store
(`forte/data/data_store.py`).

The first part embeds the code that the repository actually implements:
the constructor and the record factory `_new_entry`.  The second part
models, from the specification, the façade operations whose bodies the
repository leaves as placeholders (`add_annotation_raw`, `set_attr`,
`get_attr`, `delete_entry`, `get_entry`, `get`, `next_entry`,
`prev_entry`).
-/

namespace Forte

/-- A Python value stored in a record slot: Python's `None`, an integer,
or a string. -/
inductive Val : Type where
  | none : Val
  | int : Int → Val
  | str : String → Val
deriving DecidableEq

/-- An entry data list, as built by `_new_entry`. -/
abbrev Entry := List Val

/-- Python exceptions that the embedded code can raise. -/
inductive PyError : Type where
  | keyError : PyError
deriving DecidableEq

/-- Association-list lookup, modelling a Python `dict` read. -/
def alookup {α β : Type} [BEq α] (m : List (α × β)) (k : α) : Option β :=
  (m.find? (fun p => p.1 == k)).map Prod.snd

/-- The state of a `DataStore` object.  `uuidState` threads the
process-wide `uuid.uuid4()` supply through the embedding as explicit
state: each draw yields a fresh value and advances the supply. -/
structure DataStore : Type where
  _text : String
  _type_attributes : List (String × List String)
  elements : List (List Entry)
  entry_dict : List (Nat × Entry)
  uuidState : Nat
deriving DecidableEq

/-- `DataStore.__init__`: empty text, empty `_type_attributes`
(the populating function `get_type_attributes` is left unimplemented and
commented out), empty `elements`, empty `entry_dict`. -/
def DataStore.init : DataStore :=
  { _text := "", _type_attributes := [], elements := [], entry_dict := [],
    uuidState := 0 }

/-- `DataStore._new_entry(type, begin, end)`: draws a fresh tid from the
uuid supply, builds `entry = [type, tid, begin, end]`, then appends
`len(self._type_attributes[type])` copies of `None`; the dictionary read
raises `KeyError` when `type` is unregistered. -/
def _new_entry (self : DataStore) (type : String) (b e : Int) :
    Except PyError (Entry × DataStore) :=
  let tid : Nat := self.uuidState
  let self' : DataStore := { self with uuidState := self.uuidState + 1 }
  match alookup self._type_attributes type with
  | Option.none => Except.error PyError.keyError
  | Option.some attrs =>
      Except.ok
        ([Val.str type, Val.int tid, Val.int b, Val.int e] ++
            List.replicate attrs.length Val.none,
          self')

/-- A one-type store used to evaluate the factory at a concrete input. -/
def store1 : DataStore :=
  { DataStore.init with _type_attributes := [("T", ["a"])] }

/-- `store1` after one draw from the uuid supply. -/
def store1a : DataStore := { store1 with uuidState := 1 }

/-- The user-facing error taxonomy of the store (spec section 7). -/
inductive StoreError : Type where
  | UnknownType : StoreError
  | UnknownAttribute : StoreError
  | IdentityNotFound : StoreError
  | RecordNotFound : StoreError
deriving DecidableEq

/-- Modelled from the spec: a Record (section 3) — span offsets, the
type identifier, the unique identity, the tie-break insertion sequence
number (section 4.6), and the attribute slots.  The repository's record
layout code beyond `_new_entry` is unimplemented. -/
structure SRecord : Type where
  begin_ : Int
  end_ : Int
  type_id : String
  tid : Nat
  seqno : Nat
  attrs : List Val
deriving DecidableEq

/-- Modelled from the spec: the store state — Type Schema Registry,
Per-Type Interval Index, Identity Directory, plus the identity generator
and the insertion sequence counter.  The repository only declares these
structures (`_type_attributes`, `elements`, `entry_dict`); the code that
maintains them is unimplemented. -/
structure SpecStore : Type where
  registry : List (String × List String)
  index : List (String × List SRecord)
  directory : List (Nat × SRecord)
  nextTid : Nat
  seq : Nat
deriving DecidableEq

/-- A store whose schema registry has been populated by the external
schema provider and on which no operation has yet run. -/
def initStore (reg : List (String × List String)) : SpecStore :=
  { registry := reg, index := [], directory := [], nextTid := 0, seq := 0 }

/-- The total order of a Per-Type Interval Index (spec section 4.6):
`begin` ascending, then `end` ascending, then the insertion sequence
number ascending. -/
def keyLe (r1 r2 : SRecord) : Bool :=
  decide (r1.begin_ < r2.begin_) ||
    (decide (r1.begin_ = r2.begin_) &&
      (decide (r1.end_ < r2.end_) ||
        (decide (r1.end_ = r2.end_) && decide (r1.seqno ≤ r2.seqno))))

/-- Ordered insertion into one type's sorted record list. -/
def insertRec (r : SRecord) : List SRecord → List SRecord
  | [] => [r]
  | x :: xs => if keyLe x r then x :: insertRec r xs else r :: x :: xs

/-- Replace the value bound to key `k` in an association list,
modelling a Python `dict` write to an existing key. -/
def aupdate {α β : Type} [BEq α] (m : List (α × β)) (k : α) (v : β) :
    List (α × β) :=
  m.map (fun p => if p.1 == k then (k, v) else p)

/-- Insert a record into its type's interval index; the per-type list
is created lazily on the first insertion for that type (spec 4.3). -/
def indexInsert (idx : List (String × List SRecord)) (ty : String)
    (r : SRecord) : List (String × List SRecord) :=
  match alookup idx ty with
  | Option.none => (ty, [r]) :: idx
  | Option.some l => aupdate idx ty (insertRec r l)

/-- The record built for a creation request: the caller's span and
type, the next fresh identity and sequence number, and one unset slot
per schema attribute. -/
def newRec (s : SpecStore) (ty : String) (b e : Int)
    (schema : List String) : SRecord :=
  { begin_ := b, end_ := e, type_id := ty, tid := s.nextTid,
    seqno := s.seq, attrs := List.replicate schema.length Val.none }

/-- Modelled from the spec: `add_annotation_raw` (section 4.5), whose
body the repository leaves as a placeholder — validates the type against
the registry (`UnknownType` if absent), builds the record with a fresh
identity and unset attribute slots, inserts it into the type's interval
index and registers it in the identity directory, and returns the
identity. -/
def add_annotation_raw (s : SpecStore) (ty : String) (b e : Int) :
    Except StoreError (Nat × SpecStore) :=
  match alookup s.registry ty with
  | Option.none => Except.error StoreError.UnknownType
  | Option.some schema =>
      Except.ok (s.nextTid,
        { s with index := indexInsert s.index ty (newRec s ty b e schema),
                 directory := (s.nextTid, newRec s ty b e schema) :: s.directory,
                 nextTid := s.nextTid + 1,
                 seq := s.seq + 1 })

/-- Positional offset of an attribute within its type's slot block
(spec 4.1). -/
def attrIndex (s : SpecStore) (ty name : String) : Option Nat :=
  (alookup s.registry ty).bind (fun schema => schema.findIdx? (fun a => a == name))

/-- Write value `v` into attribute slot `i` of a record. -/
def slotSet (i : Nat) (v : Val) (x : SRecord) : SRecord :=
  { x with attrs := x.attrs.set i v }

/-- Modelled from the spec: `set_attr` (section 4.5), whose body the
repository leaves as a placeholder — resolves the identity via the
directory (`IdentityNotFound` if absent), resolves the attribute offset
via the registry (`UnknownAttribute` if invalid), and writes the slot of
the record, which is shared by the directory and the type index, so both
views are updated. -/
def set_attr (s : SpecStore) (tid : Nat) (name : String) (v : Val) :
    Except StoreError SpecStore :=
  match alookup s.directory tid with
  | Option.none => Except.error StoreError.IdentityNotFound
  | Option.some r =>
      match attrIndex s r.type_id name with
      | Option.none => Except.error StoreError.UnknownAttribute
      | Option.some i =>
          Except.ok
            { s with
              directory := s.directory.map
                (fun p => if p.1 == tid then (p.1, slotSet i v p.2) else p),
              index := aupdate s.index r.type_id
                (((alookup s.index r.type_id).getD []).map
                  (fun x => if x.tid == tid then slotSet i v x else x)) }

/-- Modelled from the spec: `get_attr` (section 4.5), whose body the
repository leaves as a placeholder — the symmetric read of `set_attr`;
an unwritten slot reads as the unset sentinel. -/
def get_attr (s : SpecStore) (tid : Nat) (name : String) :
    Except StoreError Val :=
  match alookup s.directory tid with
  | Option.none => Except.error StoreError.IdentityNotFound
  | Option.some r =>
      match attrIndex s r.type_id name with
      | Option.none => Except.error StoreError.UnknownAttribute
      | Option.some i => Except.ok ((r.attrs.get? i).getD Val.none)

/-- Modelled from the spec: `delete_entry` (section 4.5), whose body the
repository leaves as a placeholder — resolves the record
(`IdentityNotFound` if absent), removes it from its type's interval
index and from the identity directory. -/
def delete_entry (s : SpecStore) (tid : Nat) : Except StoreError SpecStore :=
  match alookup s.directory tid with
  | Option.none => Except.error StoreError.IdentityNotFound
  | Option.some r =>
      Except.ok
        { s with
          index := aupdate s.index r.type_id
            (((alookup s.index r.type_id).getD []).filter
              (fun x => !(x.tid == tid))),
          directory := s.directory.filter (fun p => !(p.1 == tid)) }

/-- Modelled from the spec: `get_entry` (section 4.5), whose body the
repository leaves as a placeholder — direct directory lookup. -/
def get_entry (s : SpecStore) (tid : Nat) : Except StoreError SRecord :=
  match alookup s.directory tid with
  | Option.none => Except.error StoreError.IdentityNotFound
  | Option.some r => Except.ok r

/-- Modelled from the spec: `get` (section 4.5), whose body the
repository leaves as a placeholder — yields the type's records in
ascending span order; an unknown type yields the empty sequence, not an
error. -/
def get (s : SpecStore) (ty : String) : List SRecord :=
  (alookup s.index ty).getD []

/-- Modelled from the spec: `next_entry` (section 4.5), whose body the
repository leaves as a placeholder — resolves the record via the
directory (`IdentityNotFound` if absent), locates it in its type's index
and returns the in-order successor, or nothing at the end. -/
def next_entry (s : SpecStore) (tid : Nat) :
    Except StoreError (Option SRecord) :=
  match alookup s.directory tid with
  | Option.none => Except.error StoreError.IdentityNotFound
  | Option.some r =>
      let l := get s r.type_id
      match l.findIdx? (fun x => x.tid == tid) with
      | Option.none => Except.error StoreError.RecordNotFound
      | Option.some i => Except.ok (l.get? (i + 1))

/-- Modelled from the spec: `prev_entry` (section 4.5), whose body the
repository leaves as a placeholder — like `next_entry` but returns the
in-order predecessor, or nothing at the front. -/
def prev_entry (s : SpecStore) (tid : Nat) :
    Except StoreError (Option SRecord) :=
  match alookup s.directory tid with
  | Option.none => Except.error StoreError.IdentityNotFound
  | Option.some r =>
      let l := get s r.type_id
      match l.findIdx? (fun x => x.tid == tid) with
      | Option.none => Except.error StoreError.RecordNotFound
      | Option.some i =>
          Except.ok (if i = 0 then Option.none else l.get? (i - 1))

/-- One mutating call of the façade API. -/
inductive Op : Type where
  | add : String → Int → Int → Op
  | set : Nat → String → Val → Op
  | del : Nat → Op

/-- Apply one mutating call; a failing call leaves the state unchanged
(spec section 7: no operation partially applies its effect). -/
def applyOp (s : SpecStore) : Op → SpecStore
  | Op.add ty b e =>
      match add_annotation_raw s ty b e with
      | Except.ok p => p.2
      | Except.error _ => s
  | Op.set tid name v =>
      match set_attr s tid name v with
      | Except.ok s' => s'
      | Except.error _ => s
  | Op.del tid =>
      match delete_entry s tid with
      | Except.ok s' => s'
      | Except.error _ => s

/-- Run a sequence of mutating calls. -/
def run (s : SpecStore) (ops : List Op) : SpecStore := ops.foldl applyOp s

/-- The identities returned by the successful `add_annotation_raw` calls
of a call sequence, in call order. -/
def addResults (s : SpecStore) : List Op → List Nat
  | [] => []
  | Op.add ty b e :: ops =>
      match add_annotation_raw s ty b e with
      | Except.ok p => p.1 :: addResults p.2 ops
      | Except.error _ => addResults s ops
  | op :: ops => addResults (applyOp s op) ops

/-- `keyLe` as a relation. -/
def KLe (r1 r2 : SRecord) : Prop := keyLe r1 r2 = true

/-- The ordering claimed for iteration: `begin` non-decreasing, and
`end` non-decreasing among equal `begin`. -/
def spanLe (r1 r2 : SRecord) : Prop :=
  r1.begin_ < r2.begin_ ∨ (r1.begin_ = r2.begin_ ∧ r1.end_ ≤ r2.end_)

/-- Internal store invariant: every per-type list is sorted by the full
key; every indexed type is registered; every directory entry has an
identity below the generator counter, a record carrying that identity,
and an attribute block sized by its type's schema. -/
def Inv (s : SpecStore) : Prop :=
  (∀ p ∈ s.index, List.Pairwise KLe p.2) ∧
  (∀ p ∈ s.index, (alookup s.registry p.1).isSome = true) ∧
  (∀ q ∈ s.directory, q.1 < s.nextTid ∧ q.2.tid = q.1 ∧
    ∃ schema, alookup s.registry q.2.type_id = Option.some schema ∧
      q.2.attrs.length = schema.length)

/-- Concrete registry used by the witnesses. -/
def regW : List (String × List String) := [("T", ["a"])]

/-- Concrete call sequence used by the witnesses. -/
def opsW : List Op := [Op.add "T" 0 10]

/-- Store reached by the witness call sequence. -/
def sW : SpecStore := run (initStore regW) opsW

/-- Witness store after setting attribute "a" of record 0. -/
def sW6 : SpecStore := (set_attr sW 0 "a" (Val.int 42)).toOption.getD (initStore [])

/-- Witness store after deleting record 0. -/
def sW7 : SpecStore := (delete_entry sW 0).toOption.getD (initStore [])

end Forte

namespace Forte

/-- C1: the claim says the record has `begin, end, type, identity` at
indices 0, 1, 2, 3.  Evaluating the factory on a registered type shows
the code instead builds `[type, tid, begin, end, ...]`: index 0 holds the
type string and the begin offset 7 sits at index 2, contradicting the
order documented in the class docstring. -/
theorem c1_new_entry_layout :
    (_new_entry store1 "T" 7 9).toOption.map Prod.fst =
      Option.some [Val.str "T", Val.int 0, Val.int 7, Val.int 9, Val.none] := by
  rfl

/-- C2: for a registered type, `_new_entry` returns a record of length
4 plus the number of attributes in the schema entry, with every
attribute slot (the suffix after the four reserved fields) set to
`None`. -/
theorem c2_new_entry_shape (s : DataStore) (ty : String)
    (attrs : List String) (b e : Int)
    (h : alookup s._type_attributes ty = Option.some attrs) :
    ∃ ent s', _new_entry s ty b e = Except.ok (ent, s') ∧
      ent.length = 4 + attrs.length ∧
      ent.drop 4 = List.replicate attrs.length Val.none := by
  refine ⟨[Val.str ty, Val.int s.uuidState, Val.int b, Val.int e] ++
      List.replicate attrs.length Val.none,
    { s with uuidState := s.uuidState + 1 }, ?_, ?_, ?_⟩
  · simp [_new_entry, h]
  · simp only [List.length_append, List.length_replicate, List.length_cons,
      List.length_nil]
  · rfl

/-- C2 witness at a concrete registered type. -/
theorem c2_new_entry_shape_w :
    alookup store1._type_attributes "T" = Option.some ["a"] ∧
      ∃ ent s', _new_entry store1 "T" 0 5 = Except.ok (ent, s') ∧
        ent.length = 4 + (["a"] : List String).length ∧
        ent.drop 4 = List.replicate (["a"] : List String).length Val.none :=
  ⟨by decide, c2_new_entry_shape store1 "T" ["a"] 0 5 (by decide)⟩

/-- C3: the factory has no side effect on the store: a successful
`_new_entry` leaves `elements`, `entry_dict` and `_type_attributes`
unchanged (only the external uuid supply advances). -/
theorem c3_new_entry_frame (s : DataStore) (ty : String) (b e : Int)
    (ent : Entry) (s' : DataStore)
    (h : _new_entry s ty b e = Except.ok (ent, s')) :
    s'.elements = s.elements ∧ s'.entry_dict = s.entry_dict ∧
      s'._type_attributes = s._type_attributes := by
  unfold _new_entry at h
  cases hl : alookup s._type_attributes ty with
  | none => rw [hl] at h; exact absurd h (by simp)
  | some attrs =>
      rw [hl] at h
      simp only [Except.ok.injEq, Prod.mk.injEq] at h
      obtain ⟨-, hs⟩ := h
      subst hs
      exact ⟨rfl, rfl, rfl⟩

/-- C3 witness at a concrete registered type. -/
theorem c3_new_entry_frame_w :
    _new_entry store1 "T" 2 3 =
      Except.ok ([Val.str "T", Val.int 0, Val.int 2, Val.int 3, Val.none],
        store1a) ∧
    store1a.elements = store1.elements ∧
    store1a.entry_dict = store1.entry_dict ∧
    store1a._type_attributes = store1._type_attributes :=
  ⟨rfl, c3_new_entry_frame store1 "T" 2 3 _ store1a rfl⟩

/-- C9: the factory checks no precondition on the offsets: for every
registered type and ALL integers `b`, `e` (including `b > e` and
negative offsets) it succeeds and stores `b` and `e` unchanged in the
returned record (at positions 2 and 3). -/
theorem c9_no_span_precondition (s : DataStore) (ty : String)
    (attrs : List String) (b e : Int)
    (h : alookup s._type_attributes ty = Option.some attrs) :
    ∃ ent s', _new_entry s ty b e = Except.ok (ent, s') ∧
      ent.get? 2 = Option.some (Val.int b) ∧
      ent.get? 3 = Option.some (Val.int e) := by
  refine ⟨[Val.str ty, Val.int s.uuidState, Val.int b, Val.int e] ++
      List.replicate attrs.length Val.none,
    { s with uuidState := s.uuidState + 1 }, ?_, ?_, ?_⟩
  · simp [_new_entry, h]
  · rfl
  · rfl

/-- C9 witness with `begin > end` and a negative offset. -/
theorem c9_no_span_precondition_w :
    alookup store1._type_attributes "T" = Option.some ["a"] ∧
      ∃ ent s', _new_entry store1 "T" 5 (-2) = Except.ok (ent, s') ∧
        ent.get? 2 = Option.some (Val.int 5) ∧
        ent.get? 3 = Option.some (Val.int (-2)) :=
  ⟨by decide, c9_no_span_precondition store1 "T" ["a"] 5 (-2) (by decide)⟩

/-- C10: a freshly constructed store has an empty schema registry, and
`_new_entry` on the fresh store raises `KeyError` for every type
string. -/
theorem c10_fresh_store_key_error (ty : String) (b e : Int) :
    DataStore.init._type_attributes = [] ∧
      _new_entry DataStore.init ty b e = Except.error PyError.keyError := by
  exact ⟨rfl, rfl⟩

end Forte

namespace Forte

/-- The index key order is total. -/
theorem keyLe_total (a b : SRecord) : keyLe a b = true ∨ keyLe b a = true := by
  unfold keyLe
  simp only [Bool.or_eq_true, Bool.and_eq_true, decide_eq_true_eq]
  omega

/-- The index key order is transitive. -/
theorem keyLe_trans (a b c : SRecord) (h1 : keyLe a b = true)
    (h2 : keyLe b c = true) : keyLe a c = true := by
  unfold keyLe at h1 h2 ⊢
  simp only [Bool.or_eq_true, Bool.and_eq_true, decide_eq_true_eq] at h1 h2 ⊢
  omega

/-- The full key order refines the claimed span order. -/
theorem KLe_spanLe {a b : SRecord} (h : KLe a b) : spanLe a b := by
  unfold KLe keyLe at h
  simp only [Bool.or_eq_true, Bool.and_eq_true, decide_eq_true_eq] at h
  unfold spanLe
  omega

/-- Members of an ordered insertion are the new record or old members. -/
theorem mem_insertRec {r y : SRecord} : ∀ {l : List SRecord},
    y ∈ insertRec r l → y = r ∨ y ∈ l := by
  intro l
  induction l with
  | nil =>
      intro h
      unfold insertRec at h
      exact Or.inl (List.mem_singleton.mp h)
  | cons x xs ih =>
      intro h
      unfold insertRec at h
      by_cases hk : keyLe x r
      · rw [if_pos hk] at h
        rcases List.mem_cons.mp h with h | h
        · exact Or.inr (h ▸ List.mem_cons_self x xs)
        · rcases ih h with h | h
          · exact Or.inl h
          · exact Or.inr (List.mem_cons_of_mem _ h)
      · rw [if_neg hk] at h
        rcases List.mem_cons.mp h with h | h
        · exact Or.inl h
        · exact Or.inr h

/-- Ordered insertion preserves sortedness by the full key. -/
theorem pairwise_insertRec (r : SRecord) : ∀ (l : List SRecord),
    l.Pairwise KLe → (insertRec r l).Pairwise KLe := by
  intro l
  induction l with
  | nil =>
      intro _
      unfold insertRec
      exact List.pairwise_singleton _ _
  | cons x xs ih =>
      intro h
      rcases List.pairwise_cons.mp h with ⟨hx, hxs⟩
      unfold insertRec
      by_cases hk : keyLe x r
      · rw [if_pos hk]
        refine List.pairwise_cons.mpr ⟨?_, ih hxs⟩
        intro y hy
        rcases mem_insertRec hy with rfl | hy
        · exact hk
        · exact hx y hy
      · rw [if_neg hk]
        have hrx : KLe r x := by
          rcases keyLe_total x r with h' | h'
          · exact absurd h' hk
          · exact h'
        refine List.pairwise_cons.mpr ⟨?_, h⟩
        intro y hy
        rcases List.mem_cons.mp hy with rfl | hy
        · exact hrx
        · exact keyLe_trans r x y hrx (hx y hy)

/-- A successful association lookup exhibits a member with that key. -/
theorem alookup_mem {α β : Type} [BEq α] [LawfulBEq α] {m : List (α × β)}
    {k : α} {v : β} (h : alookup m k = Option.some v) :
    ∃ p, p ∈ m ∧ p.1 = k ∧ p.2 = v := by
  unfold alookup at h
  cases hf : m.find? (fun p => p.1 == k) with
  | none => rw [hf] at h; simp at h
  | some p =>
      rw [hf] at h
      simp only [Option.map_some', Option.some.injEq] at h
      refine ⟨p, List.mem_of_find?_eq_some hf, ?_, h⟩
      have hb := List.find?_some hf
      exact eq_of_beq hb

/-- Unfolding an association lookup one pair at a time. -/
theorem alookup_cons {α β : Type} [BEq α] (p : α × β) (m : List (α × β))
    (k : α) :
    alookup (p :: m) k = if p.1 == k then Option.some p.2 else alookup m k := by
  unfold alookup
  by_cases hp : p.1 == k
  · rw [if_pos hp, @List.find?_cons_of_pos _ (fun q => q.1 == k) p m hp]
    rfl
  · rw [if_neg hp, @List.find?_cons_of_neg _ (fun q => q.1 == k) p m hp]

/-- Filtering a key out of an association list makes its lookup fail. -/
theorem alookup_filter_not {α β : Type} [BEq α] (m : List (α × β)) (k : α) :
    alookup (m.filter (fun p => !(p.1 == k))) k = Option.none := by
  induction m with
  | nil => rfl
  | cons p m ih =>
      by_cases hp : p.1 == k
      · rw [List.filter_cons, if_neg (by simp [hp])]
        exact ih
      · rw [List.filter_cons, if_pos (by simp [hp]), alookup_cons, if_neg hp]
        exact ih

/-- Members of an association-list update are the new pair or old
members. -/
theorem mem_aupdate {α β : Type} [BEq α] {m : List (α × β)} {k : α} {v : β}
    {p : α × β} (h : p ∈ aupdate m k v) : p = (k, v) ∨ p ∈ m := by
  unfold aupdate at h
  rcases List.mem_map.mp h with ⟨q, hq, hfq⟩
  by_cases hk : q.1 == k
  · rw [if_pos hk] at hfq
    exact Or.inl hfq.symm
  · rw [if_neg hk] at hfq
    exact Or.inr (hfq ▸ hq)

/-- Members of an index insertion: the updated type's list, a fresh
singleton list, or an untouched pair. -/
theorem mem_indexInsert {idx : List (String × List SRecord)} {ty : String}
    {r : SRecord} {p : String × List SRecord} (h : p ∈ indexInsert idx ty r) :
    (∃ l, alookup idx ty = Option.some l ∧ p = (ty, insertRec r l)) ∨
      p = (ty, [r]) ∨ p ∈ idx := by
  unfold indexInsert at h
  cases hl : alookup idx ty with
  | none =>
      rw [hl] at h
      rcases List.mem_cons.mp h with h | h
      · exact Or.inr (Or.inl h)
      · exact Or.inr (Or.inr h)
  | some l =>
      rw [hl] at h
      rcases mem_aupdate h with h | h
      · exact Or.inl ⟨l, rfl, h⟩
      · exact Or.inr (Or.inr h)

end Forte

namespace Forte

/-- Inversion of a successful creation: the type was registered and the
resulting state extends the index and the directory with the new record,
advancing both counters. -/
theorem add_ok {s : SpecStore} {ty : String} {b e : Int}
    {p : Nat × SpecStore} (h : add_annotation_raw s ty b e = Except.ok p) :
    ∃ schema, alookup s.registry ty = Option.some schema ∧
      p.1 = s.nextTid ∧
      p.2.registry = s.registry ∧
      p.2.nextTid = s.nextTid + 1 ∧
      p.2.seq = s.seq + 1 ∧
      p.2.index = indexInsert s.index ty (newRec s ty b e schema) ∧
      p.2.directory = (s.nextTid, newRec s ty b e schema) :: s.directory := by
  unfold add_annotation_raw at h
  cases hl : alookup s.registry ty with
  | none => rw [hl] at h; exact absurd h (by simp)
  | some schema =>
      rw [hl] at h
      simp only [Except.ok.injEq] at h
      rw [← h]
      exact ⟨schema, rfl, rfl, rfl, rfl, rfl, rfl, rfl⟩

/-- Inversion of a successful attribute write: the identity was live,
the attribute offset resolved, and the record's slot is updated in both
the directory and the type index. -/
theorem set_ok {s : SpecStore} {tid : Nat} {name : String} {v : Val}
    {s' : SpecStore} (h : set_attr s tid name v = Except.ok s') :
    ∃ r i, alookup s.directory tid = Option.some r ∧
      attrIndex s r.type_id name = Option.some i ∧
      s'.registry = s.registry ∧
      s'.nextTid = s.nextTid ∧
      s'.index = aupdate s.index r.type_id
        (((alookup s.index r.type_id).getD []).map
          (fun x => if x.tid == tid then slotSet i v x else x)) ∧
      s'.directory = s.directory.map
        (fun p => if p.1 == tid then (p.1, slotSet i v p.2) else p) := by
  unfold set_attr at h
  split at h
  · exact absurd h (by simp)
  · rename_i r hd
    split at h
    · exact absurd h (by simp)
    · rename_i i ha
      simp only [Except.ok.injEq] at h
      rw [← h]
      exact ⟨r, i, hd, ha, rfl, rfl, rfl, rfl⟩

/-- Inversion of a successful deletion: the identity was live and the
record is removed from both the directory and the type index. -/
theorem del_ok {s : SpecStore} {tid : Nat} {s' : SpecStore}
    (h : delete_entry s tid = Except.ok s') :
    ∃ r, alookup s.directory tid = Option.some r ∧
      s'.registry = s.registry ∧
      s'.nextTid = s.nextTid ∧
      s'.index = aupdate s.index r.type_id
        (((alookup s.index r.type_id).getD []).filter
          (fun x => !(x.tid == tid))) ∧
      s'.directory = s.directory.filter (fun p => !(p.1 == tid)) := by
  unfold delete_entry at h
  cases hd : alookup s.directory tid with
  | none => rw [hd] at h; exact absurd h (by simp)
  | some r =>
      rw [hd] at h
      simp only [Except.ok.injEq] at h
      rw [← h]
      exact ⟨r, rfl, rfl, rfl, rfl, rfl⟩

/-- A conditional slot write on either side does not change the index
key comparison. -/
theorem slotSet_keyLe (i : Nat) (v : Val) (t : Nat) (a b : SRecord) :
    keyLe (if a.tid == t then slotSet i v a else a)
      (if b.tid == t then slotSet i v b else b) = keyLe a b := by
  by_cases ha : a.tid == t <;> by_cases hb : b.tid == t <;>
    simp [ha, hb, slotSet, keyLe]

/-- Looking up the written key after a conditional slot write over the
directory returns the record with the slot written. -/
theorem alookup_slotMap {m : List (Nat × SRecord)} {k : Nat} {r : SRecord}
    (i : Nat) (v : Val) (h : alookup m k = Option.some r) :
    alookup (m.map (fun p => if p.1 == k then (p.1, slotSet i v p.2) else p)) k
      = Option.some (slotSet i v r) := by
  induction m with
  | nil => simp [alookup] at h
  | cons p m ih =>
      rw [alookup_cons] at h
      simp only [List.map_cons]
      rw [alookup_cons]
      by_cases hp : p.1 == k
      · rw [if_pos hp] at h
        have hr := Option.some.inj h
        rw [if_pos hp]
        simp [hp, hr]
      · rw [if_neg hp] at h
        rw [if_neg hp, if_neg hp]
        exact ih h

end Forte

namespace Forte

/-- The store invariant holds on a freshly loaded store. -/
theorem Inv_initStore (reg : List (String × List String)) :
    Inv (initStore reg) :=
  ⟨fun p hp => absurd hp (List.not_mem_nil p),
    fun p hp => absurd hp (List.not_mem_nil p),
    fun q hq => absurd hq (List.not_mem_nil q)⟩

/-- A successful creation preserves the store invariant. -/
theorem Inv_add {s : SpecStore} {ty : String} {b e : Int}
    {p : Nat × SpecStore} (hInv : Inv s)
    (h : add_annotation_raw s ty b e = Except.ok p) : Inv p.2 := by
  obtain ⟨h1, h2, h3⟩ := hInv
  obtain ⟨schema, hreg, -, hregE, hntE, -, hidxE, hdirE⟩ := add_ok h
  refine ⟨?_, ?_, ?_⟩
  · intro q hq
    rw [hidxE] at hq
    rcases mem_indexInsert hq with ⟨l, hl, rfl⟩ | rfl | hq
    · obtain ⟨w, hw, -, hw2⟩ := alookup_mem hl
      exact pairwise_insertRec _ _ (hw2 ▸ h1 w hw)
    · exact List.pairwise_singleton _ _
    · exact h1 q hq
  · intro q hq
    rw [hidxE] at hq
    rw [hregE]
    rcases mem_indexInsert hq with ⟨l, hl, rfl⟩ | rfl | hq
    · simp [hreg]
    · simp [hreg]
    · exact h2 q hq
  · intro q hq
    rw [hdirE] at hq
    rw [hregE, hntE]
    rcases List.mem_cons.mp hq with rfl | hq
    · refine ⟨Nat.lt_succ_self _, rfl, schema, ?_, ?_⟩
      · exact hreg
      · simp [newRec]
    · obtain ⟨ha, hb, sc, hsc, hlen⟩ := h3 q hq
      exact ⟨Nat.lt_succ_of_lt ha, hb, sc, hsc, hlen⟩

/-- A successful attribute write preserves the store invariant. -/
theorem Inv_set {s : SpecStore} {tid : Nat} {name : String} {v : Val}
    {s' : SpecStore} (hInv : Inv s)
    (h : set_attr s tid name v = Except.ok s') : Inv s' := by
  obtain ⟨h1, h2, h3⟩ := hInv
  obtain ⟨r, i, hdir, -, hregE, hntE, hidxE, hdirE⟩ := set_ok h
  refine ⟨?_, ?_, ?_⟩
  · intro q hq
    rw [hidxE] at hq
    rcases mem_aupdate hq with rfl | hq
    · cases hl : alookup s.index r.type_id with
      | none => simp [hl]
      | some l =>
          obtain ⟨w, hw, -, hw2⟩ := alookup_mem hl
          have hpl : List.Pairwise KLe l := hw2 ▸ h1 w hw
          simp only [hl, Option.getD_some]
          rw [List.pairwise_map]
          refine hpl.imp ?_
          intro a b hab
          unfold KLe at hab ⊢
          rw [slotSet_keyLe]
          exact hab
    · exact h1 q hq
  · intro q hq
    rw [hidxE] at hq
    rw [hregE]
    rcases mem_aupdate hq with rfl | hq
    · obtain ⟨w, hw, -, hw2⟩ := alookup_mem hdir
      obtain ⟨-, -, sc, hsc, -⟩ := h3 w hw
      rw [hw2] at hsc
      simp [hsc]
    · exact h2 q hq
  · intro q hq
    rw [hdirE] at hq
    rw [hregE, hntE]
    rcases List.mem_map.mp hq with ⟨w, hw, hfw⟩
    obtain ⟨ha, hb, sc, hsc, hlen⟩ := h3 w hw
    by_cases hwt : w.1 == tid
    · rw [if_pos hwt] at hfw
      rw [← hfw]
      exact ⟨ha, hb, sc, hsc, by simp [slotSet, hlen]⟩
    · rw [if_neg hwt] at hfw
      rw [← hfw]
      exact ⟨ha, hb, sc, hsc, hlen⟩

/-- A successful deletion preserves the store invariant. -/
theorem Inv_del {s : SpecStore} {tid : Nat} {s' : SpecStore} (hInv : Inv s)
    (h : delete_entry s tid = Except.ok s') : Inv s' := by
  obtain ⟨h1, h2, h3⟩ := hInv
  obtain ⟨r, hdir, hregE, hntE, hidxE, hdirE⟩ := del_ok h
  refine ⟨?_, ?_, ?_⟩
  · intro q hq
    rw [hidxE] at hq
    rcases mem_aupdate hq with rfl | hq
    · cases hl : alookup s.index r.type_id with
      | none => simp [hl]
      | some l =>
          obtain ⟨w, hw, -, hw2⟩ := alookup_mem hl
          have hpl : List.Pairwise KLe l := hw2 ▸ h1 w hw
          simp only [hl, Option.getD_some]
          exact List.Pairwise.sublist (List.filter_sublist l) hpl
    · exact h1 q hq
  · intro q hq
    rw [hidxE] at hq
    rw [hregE]
    rcases mem_aupdate hq with rfl | hq
    · obtain ⟨w, hw, -, hw2⟩ := alookup_mem hdir
      obtain ⟨-, -, sc, hsc, -⟩ := h3 w hw
      rw [hw2] at hsc
      simp [hsc]
    · exact h2 q hq
  · intro q hq
    rw [hdirE] at hq
    rw [hregE, hntE]
    exact h3 q (List.mem_of_mem_filter hq)

/-- Every façade call preserves the store invariant. -/
theorem Inv_applyOp (s : SpecStore) (op : Op) (h : Inv s) :
    Inv (applyOp s op) := by
  cases op with
  | add ty b e =>
      simp only [applyOp]
      cases ha : add_annotation_raw s ty b e with
      | ok p => exact Inv_add h ha
      | error err => exact h
  | set tid name v =>
      simp only [applyOp]
      cases ha : set_attr s tid name v with
      | ok s' => exact Inv_set h ha
      | error err => exact h
  | del tid =>
      simp only [applyOp]
      cases ha : delete_entry s tid with
      | ok s' => exact Inv_del h ha
      | error err => exact h

/-- The store invariant holds after any call sequence. -/
theorem Inv_run (s : SpecStore) (ops : List Op) (h : Inv s) :
    Inv (run s ops) := by
  induction ops generalizing s with
  | nil => exact h
  | cons op ops ih => exact ih (applyOp s op) (Inv_applyOp s op h)

/-- No façade call changes the schema registry. -/
theorem applyOp_registry (s : SpecStore) (op : Op) :
    (applyOp s op).registry = s.registry := by
  cases op with
  | add ty b e =>
      simp only [applyOp]
      cases ha : add_annotation_raw s ty b e with
      | ok p =>
          obtain ⟨schema, -, -, hregE, -⟩ := add_ok ha
          exact hregE
      | error err => rfl
  | set tid name v =>
      simp only [applyOp]
      cases ha : set_attr s tid name v with
      | ok s' =>
          obtain ⟨r, i, -, -, hregE, -⟩ := set_ok ha
          exact hregE
      | error err => rfl
  | del tid =>
      simp only [applyOp]
      cases ha : delete_entry s tid with
      | ok s' =>
          obtain ⟨r, -, hregE, -⟩ := del_ok ha
          exact hregE
      | error err => rfl

/-- The schema registry after any call sequence is the loaded one. -/
theorem run_registry (s : SpecStore) (ops : List Op) :
    (run s ops).registry = s.registry := by
  induction ops generalizing s with
  | nil => rfl
  | cons op ops ih =>
      exact (ih (applyOp s op)).trans (applyOp_registry s op)

/-- The identity counter never decreases across a façade call. -/
theorem applyOp_nextTid (s : SpecStore) (op : Op) :
    s.nextTid ≤ (applyOp s op).nextTid := by
  cases op with
  | add ty b e =>
      simp only [applyOp]
      cases ha : add_annotation_raw s ty b e with
      | ok p =>
          obtain ⟨schema, -, -, -, hntE, -⟩ := add_ok ha
          rw [hntE]
          exact Nat.le_succ _
      | error err => exact Nat.le_refl _
  | set tid name v =>
      simp only [applyOp]
      cases ha : set_attr s tid name v with
      | ok s' =>
          obtain ⟨r, i, -, -, -, hntE, -⟩ := set_ok ha
          rw [hntE]
      | error err => exact Nat.le_refl _
  | del tid =>
      simp only [applyOp]
      cases ha : delete_entry s tid with
      | ok s' =>
          obtain ⟨r, -, -, hntE, -⟩ := del_ok ha
          rw [hntE]
      | error err => exact Nat.le_refl _

/-- Every identity returned by a call sequence is at least the starting
value of the identity counter. -/
theorem addResults_le (ops : List Op) : ∀ (s : SpecStore),
    ∀ t ∈ addResults s ops, s.nextTid ≤ t := by
  induction ops with
  | nil =>
      intro s t ht
      exact absurd ht (List.not_mem_nil t)
  | cons op ops ih =>
      intro s t ht
      cases op with
      | add ty b e =>
          unfold addResults at ht
          cases ha : add_annotation_raw s ty b e with
          | ok p =>
              rw [ha] at ht
              obtain ⟨schema, -, ht1, -, hntE, -⟩ := add_ok ha
              rcases List.mem_cons.mp ht with rfl | htl
              · exact Nat.le_of_eq ht1.symm
              · have hge := ih p.2 t htl
                rw [hntE] at hge
                omega
          | error err =>
              rw [ha] at ht
              exact ih s t ht
      | set tid name v =>
          exact Nat.le_trans (applyOp_nextTid s (Op.set tid name v))
            (ih (applyOp s (Op.set tid name v)) t ht)
      | del tid =>
          exact Nat.le_trans (applyOp_nextTid s (Op.del tid))
            (ih (applyOp s (Op.del tid)) t ht)

end Forte

namespace Forte

/-- C4: for all sequences of façade calls on one store, every identity
returned by `add_annotation_raw` is distinct from every other returned
identity — across types, across identical `(type, begin, end)` calls,
and including identities of records deleted later (never reused). -/
theorem c4_identity_uniqueness (s : SpecStore) (ops : List Op) :
    (addResults s ops).Nodup := by
  induction ops generalizing s with
  | nil => exact List.nodup_nil
  | cons op ops ih =>
      cases op with
      | add ty b e =>
          simp only [addResults]
          cases ha : add_annotation_raw s ty b e with
          | ok p =>
              refine List.nodup_cons.mpr ⟨?_, ih p.2⟩
              intro hmem
              have hle := addResults_le ops p.2 p.1 hmem
              obtain ⟨schema, -, ht1, -, hntE, -⟩ := add_ok ha
              rw [hntE] at hle
              rw [ht1] at hle
              omega
          | error err => exact ih s
      | set tid name v => exact ih (applyOp s (Op.set tid name v))
      | del tid => exact ih (applyOp s (Op.del tid))

/-- C5: at every reachable state and for every type, `get` yields the
type's records with `begin` non-decreasing, and `end` non-decreasing
among equal `begin`. -/
theorem c5_get_ordering (reg : List (String × List String)) (ops : List Op)
    (ty : String) :
    (get (run (initStore reg) ops) ty).Pairwise spanLe := by
  obtain ⟨h1, -, -⟩ := Inv_run (initStore reg) ops (Inv_initStore reg)
  unfold get
  cases hl : alookup (run (initStore reg) ops).index ty with
  | none => simp
  | some l =>
      obtain ⟨q, hq, -, hq2⟩ := alookup_mem hl
      simp only [Option.getD_some]
      exact (hq2 ▸ h1 q hq).imp (fun hab => KLe_spanLe hab)

/-- C6: on any reachable store, a successful
`set_attr(tid, name, v)` followed by `get_attr(tid, name)` returns
`v`. -/
theorem c6_attr_round_trip (reg : List (String × List String))
    (ops : List Op) (tid : Nat) (name : String) (v : Val) (s' : SpecStore)
    (h : set_attr (run (initStore reg) ops) tid name v = Except.ok s') :
    get_attr s' tid name = Except.ok v := by
  obtain ⟨-, -, h3⟩ := Inv_run (initStore reg) ops (Inv_initStore reg)
  obtain ⟨r, i, hdir, hai, hregE, -, -, hdirE⟩ := set_ok h
  obtain ⟨q, hq, -, hq2⟩ := alookup_mem hdir
  obtain ⟨-, -, schema, hsc, hlen⟩ := h3 q hq
  rw [hq2] at hsc hlen
  unfold attrIndex at hai
  rw [hsc] at hai
  have hfi : schema.findIdx? (fun a => a == name) = Option.some i := hai
  have hilt : i < schema.length :=
    (List.findIdx?_eq_some_iff_findIdx_eq.mp hfi).1
  have hlook : alookup s'.directory tid = Option.some (slotSet i v r) := by
    rw [hdirE]
    exact alookup_slotMap i v hdir
  have ht : (slotSet i v r).type_id = r.type_id := rfl
  have hai' : attrIndex s' (slotSet i v r).type_id name = Option.some i := by
    unfold attrIndex
    rw [ht, hregE, hsc]
    exact hfi
  simp only [get_attr, hlook, hai']
  have hlt : i < r.attrs.length := by rw [hlen]; exact hilt
  have hget : (r.attrs.set i v)[i]? = Option.some v :=
    List.getElem?_set_eq_of_lt v hlt
  simp [slotSet, hget]

/-- C6 witness on a concrete store with one Sentence-like record. -/
theorem c6_attr_round_trip_w :
    set_attr (run (initStore regW) opsW) 0 "a" (Val.int 42) =
      Except.ok sW6 ∧
    get_attr sW6 0 "a" = Except.ok (Val.int 42) :=
  ⟨rfl, c6_attr_round_trip regW opsW 0 "a" (Val.int 42) sW6 rfl⟩

/-- C7: after a successful `delete_entry(tid)` on a reachable store,
`get_entry`, `get_attr`, `next_entry` and `prev_entry` on `tid` all fail
with `IdentityNotFound`, and no later creation ever returns `tid`
again. -/
theorem c7_deletion_finality (reg : List (String × List String))
    (ops : List Op) (tid : Nat) (s' : SpecStore)
    (h : delete_entry (run (initStore reg) ops) tid = Except.ok s') :
    get_entry s' tid = Except.error StoreError.IdentityNotFound ∧
    (∀ name, get_attr s' tid name =
      Except.error StoreError.IdentityNotFound) ∧
    next_entry s' tid = Except.error StoreError.IdentityNotFound ∧
    prev_entry s' tid = Except.error StoreError.IdentityNotFound ∧
    ∀ more, tid ∉ addResults s' more := by
  obtain ⟨-, -, h3⟩ := Inv_run (initStore reg) ops (Inv_initStore reg)
  obtain ⟨r, hdir, -, hntE, -, hdirE⟩ := del_ok h
  have hnone : alookup s'.directory tid = Option.none := by
    rw [hdirE]
    exact alookup_filter_not _ _
  refine ⟨?_, ?_, ?_, ?_, ?_⟩
  · simp only [get_entry, hnone]
  · intro name
    simp only [get_attr, hnone]
  · simp only [next_entry, hnone]
  · simp only [prev_entry, hnone]
  · intro more hmem
    have hle := addResults_le more s' tid hmem
    obtain ⟨q, hq, hq1, -⟩ := alookup_mem hdir
    have hlt := (h3 q hq).1
    rw [hq1] at hlt
    rw [hntE] at hle
    omega

/-- C7 witness: create one record, delete it, and observe every lookup
fail and a later creation return a different identity. -/
theorem c7_deletion_finality_w :
    delete_entry (run (initStore regW) opsW) 0 = Except.ok sW7 ∧
    get_entry sW7 0 = Except.error StoreError.IdentityNotFound ∧
    get_attr sW7 0 "a" = Except.error StoreError.IdentityNotFound ∧
    next_entry sW7 0 = Except.error StoreError.IdentityNotFound ∧
    prev_entry sW7 0 = Except.error StoreError.IdentityNotFound ∧
    0 ∉ addResults sW7 [Op.add "T" 1 2] :=
  ⟨rfl,
    (c7_deletion_finality regW opsW 0 sW7 rfl).1,
    (c7_deletion_finality regW opsW 0 sW7 rfl).2.1 "a",
    (c7_deletion_finality regW opsW 0 sW7 rfl).2.2.1,
    (c7_deletion_finality regW opsW 0 sW7 rfl).2.2.2.1,
    (c7_deletion_finality regW opsW 0 sW7 rfl).2.2.2.2 [Op.add "T" 1 2]⟩

/-- C8: a type identifier absent from the schema registry makes
creation fail with `UnknownType`, while reading that type via `get`
returns the empty sequence rather than an error. -/
theorem c8_unknown_type (reg : List (String × List String)) (ops : List Op)
    (ty : String) (b e : Int) (h : alookup reg ty = Option.none) :
    add_annotation_raw (run (initStore reg) ops) ty b e =
      Except.error StoreError.UnknownType ∧
    get (run (initStore reg) ops) ty = [] := by
  have hreg : (run (initStore reg) ops).registry = reg :=
    run_registry (initStore reg) ops
  obtain ⟨-, h2, -⟩ := Inv_run (initStore reg) ops (Inv_initStore reg)
  constructor
  · simp only [add_annotation_raw, hreg, h]
  · unfold get
    cases hl : alookup (run (initStore reg) ops).index ty with
    | none => rfl
    | some l =>
        obtain ⟨q, hq, hq1, -⟩ := alookup_mem hl
        have hsome := h2 q hq
        rw [hq1, hreg, h] at hsome
        simp at hsome

/-- C8 witness on a registry that knows only type "T". -/
theorem c8_unknown_type_w :
    alookup regW "X" = Option.none ∧
    (add_annotation_raw (run (initStore regW) opsW) "X" 1 2 =
        Except.error StoreError.UnknownType ∧
      get (run (initStore regW) opsW) "X" = []) :=
  ⟨rfl, c8_unknown_type regW opsW "X" 1 2 rfl⟩

end Forte
